import Mathlib

/-!
# Shallow embedding of the `stargazers` fetch engine (`fetch/fetch.go`)

This file embeds the single-request fetch engine of the repository:
`fetchURL` and `doFetch` from `fetch/fetch.go`, the `Link`-header parsing
regular expression `linkRE`, the backoff / rate-limit policy, and the
response cache they use.  The cache primitives (`getCache`, `putCache`,
`clearEntry`) live in a file (`fetch/cache.go`) that is not part of the
provided sources; they are modelled from the spec (§4.5) as a keyed map
from a request URL to a stored response, with overwrite-on-put and
delete-on-invalidate semantics.

Machine-level aspects abstracted:
* HTTP requests/responses are records of the fields the engine consults
  (status code, the three consumed headers, and the body-read outcome).
* The network is an oracle `Env.net : ℕ → Attempt` giving the outcome of
  the n-th network call of a run; `json.Unmarshal` success is an oracle
  `Env.decodeOk : String → Bool` on the raw body bytes (deterministic for
  a fixed destination type, like the Go function).
* Wall-clock time is an integer nanosecond counter advanced only by
  `time.Sleep` (a sleep of a non-positive duration returns immediately,
  as in Go); real network latency is not modelled.
* `strconv.Atoi` is modelled without its 64-bit range error.
-/

namespace Stargazers

/-- `Context` from `fetch/query.go` (lines 47-54): configuration used to
query GitHub. -/
structure Context where
  Repo : String
  Token : String
  CacheDir : String
  acceptHeader : String
deriving DecidableEq, Repr

/-- The response headers consumed by the engine: `Link`,
`X-rateLimit-Remaining`, `X-rateLimit-Reset`.  As with Go's
`http.Header.Get`, an absent header is the empty string. -/
structure Headers where
  link : String
  xRateLimitRemaining : String
  xRateLimitReset : String
deriving DecidableEq, Repr

/-- An HTTP response as consulted by the engine: its status code, the
consumed headers, and the outcome of `ioutil.ReadAll` on its body
(`none` models a read error, i.e. a corrupt body). -/
structure Response where
  statusCode : Nat
  headers : Headers
  bodyRead : Option String
deriving DecidableEq, Repr

/-- One network-call outcome scripted by the environment: either a
transport-level failure of `http.DefaultClient.Do` (no response at all),
or a response together with whether a `putCache` write would succeed. -/
inductive Attempt where
  | netErr (msg : String)
  | response (r : Response) (putCacheOk : Bool)
deriving DecidableEq, Repr

/-- The deterministic oracles a run consumes: the outcome of the n-th
network call, and whether `json.Unmarshal` succeeds on given body bytes
(deterministic for the fixed destination type of the call). -/
structure Env where
  net : Nat → Attempt
  decodeOk : String → Bool

/-- The error values produced by `doFetch` (`fetch/fetch.go`):
`rateLimitError` (lines 31-48), `httpError` (lines 50-59), and any other
error (`errors.New`, transport errors), which the retry loop's type
switch sends to its `default` branch. -/
inductive FetchErr where
  | rateLimited (resetUnix : Int)
  | httpErr (status : Nat)
  | generic (msg : String)
deriving DecidableEq, Repr

/-- The three possible returns of `doFetch`: a response with `nil` error,
`nil` response with `nil` error (the status-200, failed-`putCache` path
falls through the switch and returns the outer `err`, which is `nil`),
or `nil` response with a non-`nil` error. -/
inductive DoFetchRes where
  | okResp (r : Response)
  | okNil
  | fail (e : FetchErr)
deriving DecidableEq, Repr

/-- Modelled from the spec (§4.5, `fetch/cache.go` not in the provided
sources): cache entries are keyed by a path derived from the cache root,
the tracked repository and the request URL. -/
def cacheKey (c : Context) (url : String) : String :=
  c.CacheDir ++ "/" ++ c.Repo ++ "/" ++ url

/-- Modelled from the spec (§4.5): `get(identity) -> CacheEntry?`, a
lookup of the stored response for a key. -/
def getCache (key : String) (cache : List (String × Response)) : Option Response :=
  (cache.find? (fun p => p.1 == key)).map (fun p => p.2)

/-- Modelled from the spec (§3, §4.5): `put(identity, entry)`; at most
one entry per identity, writing overwrites. -/
def putCache (key : String) (r : Response) (cache : List (String × Response)) :
    List (String × Response) :=
  (key, r) :: cache.filter (fun p => ¬(p.1 == key))

/-- Modelled from the spec (§4.5): `invalidate(identity)`, deleting the
entry for a key. -/
def clearEntry (key : String) (cache : List (String × Response)) :
    List (String × Response) :=
  cache.filter (fun p => ¬(p.1 == key))

/-- The mutable state threaded through a run: the context the engine
reads (a pointer target in Go, returned so that frame claims are
expressible), the response cache, the clock (ns), and instrumentation
that records the observable effects (network calls made, requested sleep
durations, the clock value at each network-call issue, and the number of
cache invalidations). -/
structure St where
  ctx : Context
  cache : List (String × Response)
  now : Int
  netCalls : Nat
  sleeps : List Int
  attemptTimes : List Int
  clears : Nat
deriving DecidableEq, Repr

/-! ## `strconv.Atoi` and the `Link` header regular expression -/

/-- Digit-string parsing: all characters must be decimal digits and the
string must be non-empty. -/
def digits? : List Char → Option Nat
  | [] => none
  | [c] => if c.isDigit then some (c.toNat - '0'.toNat) else none
  | c :: rest =>
    if c.isDigit then
      match digits? rest with
      | some n => some ((c.toNat - '0'.toNat) * 10 ^ rest.length + n)
      | none => none
    else none

/-- `strconv.Atoi`: an optional sign followed by at least one digit;
anything else is an error (`none`).  The 64-bit range error is not
modelled. -/
def atoi? (s : String) : Option Int :=
  match s.data with
  | [] => none
  | '+' :: rest => (digits? rest).map (fun n => (n : Int))
  | '-' :: rest => (digits? rest).map (fun n => -(n : Int))
  | l => (digits? l).map (fun n => (n : Int))

/-- The literal between the two capture groups of `linkRE`:
the characters of the string "greater-than, semicolon, space,
rel equals quote next quote, comma, space, less-than". -/
def linkSep1 : List Char := ">; rel=\"next\", <".data

/-- The literal after the second capture group of `linkRE`. -/
def linkSep2 : List Char := ">; rel=\"last\"".data

/-- `.` in a Go regular expression matches any rune except a newline;
a capture group `(.*)` may hold exactly the newline-free strings. -/
def noNL (l : List Char) : Bool := l.all (fun c => c ≠ '\n')

/-- Greatest `i ≤ n` satisfying `p`, if any (greedy-match search). -/
def findMaxIdx (p : Nat → Bool) : Nat → Option Nat
  | 0 => if p 0 then some 0 else none
  | n + 1 => if p (n + 1) then some (n + 1) else findMaxIdx p n

/-- Whether, at split point `i` of `t`, the first capture group can end:
the group contents `t.take i` are newline-free, the literal
`>; rel="next", <` follows, and the remainder still matches the rest of
the pattern (some split point for the second group exists; the trailing
`.*` of the pattern imposes no constraint). -/
def linkFirstOk (t : List Char) (i : Nat) : Bool :=
  noNL (t.take i) && linkSep1.isPrefixOf (t.drop i) &&
    (List.range (((t.drop i).drop linkSep1.length).length + 1)).any (fun j =>
      noNL (((t.drop i).drop linkSep1.length).take j) &&
        linkSep2.isPrefixOf (((t.drop i).drop linkSep1.length).drop j))

/-- `linkRE = ^<(.*)>; rel="next", <(.*)>; rel="last".*` applied by
`FindStringSubmatch` (`fetch/fetch.go` lines 61-62): anchored at the
start, both groups greedy (the first maximised first, then the second),
`.` not matching newlines, and the trailing `.*` vacuous because the
pattern is not end-anchored.  Returns the two captured groups. -/
def linkMatch (s : String) : Option (String × String) :=
  match s.data with
  | '<' :: t =>
    match findMaxIdx (linkFirstOk t) t.length with
    | none => none
    | some i =>
      let u := (t.drop i).drop linkSep1.length
      match findMaxIdx
          (fun j => noNL (u.take j) && linkSep2.isPrefixOf (u.drop j)) u.length with
      | none => none
      | some j => some (String.mk (t.take i), String.mk (u.take j))
  | _ => none

/-- The `next` URL `fetchURL` extracts from a response
(`fetch/fetch.go` lines 130-136): nothing when the `Link` header is
absent or the regular expression does not match, otherwise the first
capture group. -/
def linkNextStr (r : Response) : String :=
  if r.headers.link = "" then ""
  else
    match linkMatch r.headers.link with
    | some (u1, _) => u1
    | none => ""

/-! ## `doFetch` (fetch/fetch.go lines 163-200) -/

/-- The classification `doFetch` performs on one network-call outcome
(`fetch/fetch.go` lines 166-199).  A transport error of
`http.DefaultClient.Do` is returned directly (a non-typed error).
Status 200 with a successful `putCache` returns the response; with a
failed `putCache`, control falls past the switch and returns
`nil, err` where `err` is the (nil) outer error — `okNil`.
Status 202 produces a plain error (retry loop default branch).
Status 403 with `X-rateLimit-Remaining` present, parsing to `0`, and
`X-rateLimit-Reset` present and parsing, produces a `rateLimitError`;
every other 403 falls through to the `default` branch, which (like every
other status) produces an `httpError`. -/
def classify (a : Attempt) : DoFetchRes :=
  match a with
  | .netErr m => .fail (.generic m)
  | .response r putCacheOk =>
    if r.statusCode = 200 then
      if putCacheOk then .okResp r else .okNil
    else if r.statusCode = 202 then
      .fail (.generic "202 (Accepted) HTTP response; backoff and retry")
    else if r.statusCode = 403 then
      if r.headers.xRateLimitRemaining ≠ "" then
        match atoi? r.headers.xRateLimitRemaining with
        | some remaining =>
          if remaining = 0 then
            if r.headers.xRateLimitReset ≠ "" then
              match atoi? r.headers.xRateLimitReset with
              | some resetUnix => .fail (.rateLimited resetUnix)
              | none => .fail (.httpErr r.statusCode)
            else .fail (.httpErr r.statusCode)
          else .fail (.httpErr r.statusCode)
        | none => .fail (.httpErr r.statusCode)
      else .fail (.httpErr r.statusCode)
    else .fail (.httpErr r.statusCode)

/-- One `doFetch` call: consumes the next scripted network outcome,
records the issue time and the call, and on the status-200,
`putCache`-succeeds path writes the response into the cache before
returning it (`fetch/fetch.go` lines 173-177). -/
def doFetchM (url : String) (env : Env) (st : St) : DoFetchRes × St :=
  let a := env.net st.netCalls
  let st₁ : St := { st with
    netCalls := st.netCalls + 1
    attemptTimes := st.attemptTimes ++ [st.now] }
  match classify a with
  | .okResp r => (.okResp r, { st₁ with cache := putCache (cacheKey st₁.ctx url) r st₁.cache })
  | res => (res, st₁)

/-! ## Backoff and rate-limit policy (fetch/fetch.go lines 95-128) -/

/-- `rateLimitError.expiration` (`fetch/fetch.go` lines 44-48): the
duration (ns) from `now` until one second past the reset time. -/
def expiration (resetUnix : Int) (now : Int) : Int :=
  resetUnix * 1000000000 + 1000000000 - now

/-- The backoff before retrying a transient failure at loop index `i`
(`fetch/fetch.go` lines 117-120): `(1 << i) * 50000000` ns, capped at
`1000000000` ns. -/
def backoff (i : Nat) : Int :=
  let b : Int := 2 ^ i * 50000000
  if b > 1000000000 then 1000000000 else b

/-- `time.Sleep`: records the requested duration and advances the clock;
a non-positive duration returns immediately. -/
def sleepM (d : Int) (st : St) : St :=
  { st with sleeps := st.sleeps ++ [d], now := st.now + max d 0 }

/-- Outcome of the inner retry loop of `fetchURL`: it breaks with a
response, breaks with no response (either `doFetch` returned
`nil, nil` or all ten attempts failed), or returns from `fetchURL`
entirely on an `httpError` (the `return "", nil` at line 113). -/
inductive InnerRes where
  | gotResp (r : Response)
  | gotNil
  | httpAbort
deriving DecidableEq, Repr

/-- The inner retry loop of `fetchURL` (`fetch/fetch.go` lines 99-123):
`for i := uint(0); i < 10; i++`, with `n` attempts remaining and `i` the
current loop index.  Breaks on `err == nil`; sleeps until the rate-limit
expiration on a `rateLimitError`; returns (softly) on an `httpError`;
sleeps `backoff i` on any other error. -/
def retryLoop (url : String) (env : Env) : Nat → Nat → St → InnerRes × St
  | 0, _, st => (.gotNil, st)
  | n + 1, i, st =>
    match doFetchM url env st with
    | (.okResp r, st') => (.gotResp r, st')
    | (.okNil, st') => (.gotNil, st')
    | (.fail (.rateLimited t), st') =>
      retryLoop url env n (i + 1) (sleepM (expiration t st'.now) st')
    | (.fail (.httpErr _), st') => (.httpAbort, st')
    | (.fail (.generic _), st') =>
      retryLoop url env n (i + 1) (sleepM (backoff i) st')

/-! ## `fetchURL` (fetch/fetch.go lines 64-161) -/

/-- The visible result of one `fetchURL` call: the returned next-page
URL, the returned error (`none` is Go's `nil`), and the body bytes that
were successfully unmarshalled into the caller's destination, if any. -/
structure FetchOut where
  next : String
  error : Option String
  decoded : Option String
deriving DecidableEq, Repr

/-- Result of one pass of `fetchURL`'s body (without the corruption
recursion): either a returned `FetchOut`, or the corrupted-body path
(`fetch/fetch.go` lines 150-156), which clears the cache entry and
recurses into a fresh `fetchURL` call. -/
inductive OnceRes where
  | done (o : FetchOut)
  | corrupted
deriving DecidableEq, Repr

/-- The tail of `fetchURL` (`fetch/fetch.go` lines 146-160) on the
response it settled on, with `next` already extracted: read the body
(`ioutil.ReadAll`); on a read error clear the cache entry and signal the
corruption recursion; then `json.Unmarshal` the bytes, a failure of
which is a hard error discarding `next`. -/
def finishResp (url : String) (next : String) (r : Response) (env : Env) (st : St) :
    OnceRes × St :=
  match r.bodyRead with
  | none =>
    (.corrupted,
      { st with cache := clearEntry (cacheKey st.ctx url) st.cache, clears := st.clears + 1 })
  | some body =>
    if env.decodeOk body then (.done ⟨next, none, some body⟩, st)
    else (.done ⟨"", some ("unmarshal URL=" ++ url), none⟩, st)

/-- The network branch of `fetchURL`'s loop (`fetch/fetch.go` lines
96-128 with `resp == nil`, then 125-136): run the retry loop; if it
yields no response (an `httpError` return at line 113, or `resp == nil`
after the loop at lines 125-128) return the soft failure `"", nil`;
otherwise extract the next link from the fresh response and finish
(`cached` is false, so the loop at line 139 breaks). -/
def networkPhase (url : String) (env : Env) (st : St) : OnceRes × St :=
  match retryLoop url env 10 0 st with
  | (.gotResp r, st') => finishResp url (linkNextStr r) r env st'
  | (_, st') => (.done ⟨"", none, none⟩, st')

/-- One pass of `fetchURL` (`fetch/fetch.go` lines 83-160, without the
corruption recursion): consult the cache; on a hit, extract the next
link from the cached response and use it directly unless it has no next
link and `refresh` is set (lines 137-143), in which case the cached
response is dropped and the network branch runs; on a miss, run the
network branch. -/
def fetchOnce (url : String) (refresh : Bool) (env : Env) (st : St) : OnceRes × St :=
  match getCache (cacheKey st.ctx url) st.cache with
  | none => networkPhase url env st
  | some r =>
    let next := linkNextStr r
    if next ≠ "" ∨ refresh = false then finishResp url next r env st
    else networkPhase url env st

/-- `fetchURL` (`fetch/fetch.go` lines 70-161).  The corruption path
(lines 150-156) recurses into a fresh identical call; the Go recursion
is unbounded, so the model carries fuel and returns `none` when a run
needs more corruption recursions than the fuel allows. -/
def fetchURL (url : String) (refresh : Bool) (env : Env) : Nat → St → Option FetchOut × St
  | 0, st =>
    match fetchOnce url refresh env st with
    | (.done o, st') => (some o, st')
    | (.corrupted, st') => (none, st')
  | fuel + 1, st =>
    match fetchOnce url refresh env st with
    | (.done o, st') => (some o, st')
    | (.corrupted, st') => fetchURL url refresh env fuel st'

/-- `QueryStargazers` (`fetch/query.go` lines 254-264) copies the caller
context by value and sets the star-timestamp accept header on the copy:
`cCopy := *c; cCopy.acceptHeader = "application/vnd.github.v3.star+json"`.
Returns the context handed to `fetchURL` and the caller's context after
the call. -/
def queryStargazersCall (c : Context) : Context × Context :=
  let cCopy : Context := { c with acceptHeader := "application/vnd.github.v3.star+json" }
  (cCopy, c)

/-! ## Basic lemmas about the cache and the primitive steps -/

lemma getCache_putCache (key : String) (r : Response) (cache : List (String × Response)) :
    getCache key (putCache key r cache) = some r := by
  simp [getCache, putCache, List.find?]

lemma getCache_clearEntry (key : String) (cache : List (String × Response)) :
    getCache key (clearEntry key cache) = none := by
  simp only [getCache, clearEntry]
  rw [List.find?_eq_none.mpr]
  · rfl
  · intro p hp
    simp only [List.mem_filter, decide_not] at hp
    simpa using hp.2

lemma sleepM_fields (d : Int) (st : St) :
    (sleepM d st).ctx = st.ctx ∧ (sleepM d st).netCalls = st.netCalls ∧
      (sleepM d st).now = st.now + max d 0 ∧
      (sleepM d st).attemptTimes = st.attemptTimes ∧
      (sleepM d st).sleeps = st.sleeps ++ [d] ∧
      (sleepM d st).clears = st.clears := by
  simp [sleepM]

lemma st_le_sleepM_now (d : Int) (st : St) : st.now ≤ (sleepM d st).now := by
  simp only [sleepM]
  have : (0 : Int) ≤ max d 0 := le_max_right d 0
  omega

/-- `doFetch` always returns the classification of the scripted outcome
of the call it performs. -/
lemma doFetchM_fst (url : String) (env : Env) (st : St) :
    (doFetchM url env st).1 = classify (env.net st.netCalls) := by
  unfold doFetchM
  cases h : classify (env.net st.netCalls) <;> simp [h]

lemma doFetchM_fields (url : String) (env : Env) (st : St) :
    (doFetchM url env st).2.ctx = st.ctx ∧
      (doFetchM url env st).2.netCalls = st.netCalls + 1 ∧
      (doFetchM url env st).2.now = st.now ∧
      (doFetchM url env st).2.attemptTimes = st.attemptTimes ++ [st.now] ∧
      (doFetchM url env st).2.sleeps = st.sleeps ∧
      (doFetchM url env st).2.clears = st.clears := by
  unfold doFetchM
  cases h : classify (env.net st.netCalls) <;> simp [h]

lemma doFetchM_cache_okResp (url : String) (env : Env) (st : St) (r : Response)
    (h : classify (env.net st.netCalls) = .okResp r) :
    (doFetchM url env st).2.cache = putCache (cacheKey st.ctx url) r st.cache := by
  simp [doFetchM, h]

lemma doFetchM_cache_not_okResp (url : String) (env : Env) (st : St)
    (h : ∀ r, classify (env.net st.netCalls) ≠ .okResp r) :
    (doFetchM url env st).2.cache = st.cache := by
  unfold doFetchM
  cases hc : classify (env.net st.netCalls) with
  | okResp r => exact absurd hc (h r)
  | okNil => simp [hc]
  | fail e => simp [hc]

lemma finishResp_fields (url next : String) (r : Response) (env : Env) (st : St) :
    (finishResp url next r env st).2.ctx = st.ctx ∧
      (finishResp url next r env st).2.netCalls = st.netCalls ∧
      (finishResp url next r env st).2.now = st.now ∧
      (finishResp url next r env st).2.attemptTimes = st.attemptTimes ∧
      (finishResp url next r env st).2.sleeps = st.sleeps := by
  unfold finishResp
  cases r.bodyRead with
  | none => simp
  | some body => by_cases h : env.decodeOk body <;> simp [h]

/-- Unfolding equation for one step of the retry loop. -/
lemma retryLoop_succ (url : String) (env : Env) (n i : Nat) (st : St) :
    retryLoop url env (n + 1) i st =
      match doFetchM url env st with
      | (.okResp r, st') => (InnerRes.gotResp r, st')
      | (.okNil, st') => (InnerRes.gotNil, st')
      | (.fail (.rateLimited t), st') =>
        retryLoop url env n (i + 1) (sleepM (expiration t st'.now) st')
      | (.fail (.httpErr _), st') => (InnerRes.httpAbort, st')
      | (.fail (.generic _), st') =>
        retryLoop url env n (i + 1) (sleepM (backoff i) st') := by
  rfl

/-- State evolution through the retry loop: the context is untouched,
the call count grows by at most the remaining attempts, the clock never
goes backwards, and every recorded attempt-issue time is either an old
one or at least the starting clock value. -/
lemma retryLoop_state (url : String) (env : Env) :
    ∀ n i st,
      (retryLoop url env n i st).2.ctx = st.ctx ∧
        st.netCalls ≤ (retryLoop url env n i st).2.netCalls ∧
        (retryLoop url env n i st).2.netCalls ≤ st.netCalls + n ∧
        st.now ≤ (retryLoop url env n i st).2.now ∧
        (∀ t ∈ (retryLoop url env n i st).2.attemptTimes,
          t ∈ st.attemptTimes ∨ st.now ≤ t) := by
  intro n
  induction n with
  | zero =>
    intro i st
    refine ⟨rfl, le_refl _, by simp [retryLoop], le_refl _, ?_⟩
    intro t ht
    exact Or.inl ht
  | succ n ih =>
    intro i st
    obtain ⟨hctx, hnc, hnow, hat, hsl, _⟩ := doFetchM_fields url env st
    have hstep : ∀ st', st' = (doFetchM url env st).2 →
        ∀ d, (retryLoop url env n (i + 1) (sleepM d st')).2.ctx = st.ctx ∧
          st.netCalls ≤ (retryLoop url env n (i + 1) (sleepM d st')).2.netCalls ∧
          (retryLoop url env n (i + 1) (sleepM d st')).2.netCalls ≤ st.netCalls + (n + 1) ∧
          st.now ≤ (retryLoop url env n (i + 1) (sleepM d st')).2.now ∧
          (∀ t ∈ (retryLoop url env n (i + 1) (sleepM d st')).2.attemptTimes,
            t ∈ st.attemptTimes ∨ st.now ≤ t) := by
      intro st' hst' d
      obtain ⟨ihctx, ihnc1, ihnc2, ihnow, ihat⟩ := ih (i + 1) (sleepM d st')
      have hni : (sleepM d st').netCalls = st.netCalls + 1 := by rw [hst'] at *; simp [sleepM, hnc]
      have hci : (sleepM d st').ctx = st.ctx := by rw [hst']; simpa [sleepM] using hctx
      have hnowi : st.now ≤ (sleepM d st').now := by
        calc st.now = (doFetchM url env st).2.now := hnow.symm
          _ ≤ (sleepM d (doFetchM url env st).2).now := st_le_sleepM_now _ _
          _ = (sleepM d st').now := by rw [hst']
      have hati : (sleepM d st').attemptTimes = st.attemptTimes ++ [st.now] := by
        rw [hst']; simpa [sleepM] using hat
      refine ⟨by rw [ihctx, hci], ?_, ?_, le_trans hnowi ihnow, ?_⟩
      · omega
      · omega
      · intro t ht
        rcases ihat t ht with h | h
        · rw [hati] at h
          rcases List.mem_append.mp h with h | h
          · exact Or.inl h
          · simp only [List.mem_singleton] at h
            exact Or.inr (le_of_eq h.symm)
        · exact Or.inr (le_trans hnowi h)
    have hbase : (doFetchM url env st).2.ctx = st.ctx ∧
        st.netCalls ≤ (doFetchM url env st).2.netCalls ∧
        (doFetchM url env st).2.netCalls ≤ st.netCalls + (n + 1) ∧
        st.now ≤ (doFetchM url env st).2.now ∧
        (∀ t ∈ (doFetchM url env st).2.attemptTimes,
          t ∈ st.attemptTimes ∨ st.now ≤ t) := by
      refine ⟨hctx, by omega, by omega, le_of_eq hnow.symm, ?_⟩
      intro t ht
      rw [hat] at ht
      rcases List.mem_append.mp ht with h | h
      · exact Or.inl h
      · simp only [List.mem_singleton] at h
        exact Or.inr (le_of_eq h.symm)
    rw [retryLoop_succ]
    cases hd : doFetchM url env st with
    | mk res st' =>
      rw [hd] at hbase
      cases res with
      | okResp r => exact hbase
      | okNil => exact hbase
      | fail e =>
        cases e with
        | rateLimited t => exact hstep st' (by rw [hd]) (expiration t st'.now)
        | httpErr s => exact hbase
        | generic m => exact hstep st' (by rw [hd]) (backoff i)

/-! ## Classification predicates for the retry policy -/

/-- Outcomes the retry loop retries after a wait: a `rateLimitError` or
any error other than an `httpError` (the `default` branch). -/
def isRetryable : DoFetchRes → Bool
  | .fail (.rateLimited _) => true
  | .fail (.generic _) => true
  | _ => false

/-- Outcomes the retry loop treats as permanent: an `httpError`. -/
def isPermanent : DoFetchRes → Bool
  | .fail (.httpErr _) => true
  | _ => false

/-- Outcomes hitting the `default` (exponential backoff) branch of the
retry loop's type switch. -/
def isGeneric : DoFetchRes → Bool
  | .fail (.generic _) => true
  | _ => false

lemma isRetryable_elim {d : DoFetchRes} (h : isRetryable d = true) :
    (∃ t, d = .fail (.rateLimited t)) ∨ ∃ m, d = .fail (.generic m) := by
  cases d with
  | okResp r => simp [isRetryable] at h
  | okNil => simp [isRetryable] at h
  | fail e =>
    cases e with
    | rateLimited t => exact Or.inl ⟨t, rfl⟩
    | httpErr s => simp [isRetryable] at h
    | generic m => exact Or.inr ⟨m, rfl⟩

lemma isPermanent_elim {d : DoFetchRes} (h : isPermanent d = true) :
    ∃ s, d = .fail (.httpErr s) := by
  cases d with
  | okResp r => simp [isPermanent] at h
  | okNil => simp [isPermanent] at h
  | fail e =>
    cases e with
    | rateLimited t => simp [isPermanent] at h
    | httpErr s => exact ⟨s, rfl⟩
    | generic m => simp [isPermanent] at h

lemma isGeneric_elim {d : DoFetchRes} (h : isGeneric d = true) :
    ∃ m, d = .fail (.generic m) := by
  cases d with
  | okResp r => simp [isGeneric] at h
  | okNil => simp [isGeneric] at h
  | fail e =>
    cases e with
    | rateLimited t => simp [isGeneric] at h
    | httpErr s => simp [isGeneric] at h
    | generic m => exact ⟨m, rfl⟩

/-- If every remaining scripted outcome classifies as retryable, the
loop consumes its whole budget and breaks with no response. -/
lemma retryLoop_exhaust (url : String) (env : Env) :
    ∀ n i st, (∀ j, j < n → isRetryable (classify (env.net (st.netCalls + j))) = true) →
      (retryLoop url env n i st).1 = .gotNil ∧
        (retryLoop url env n i st).2.netCalls = st.netCalls + n := by
  intro n
  induction n with
  | zero => intro i st _; exact ⟨rfl, rfl⟩
  | succ n ih =>
    intro i st h
    have h0 : isRetryable (classify (env.net (st.netCalls + 0))) = true := h 0 (by omega)
    obtain ⟨_, hnc, _, _, _, _⟩ := doFetchM_fields url env st
    have hfst := doFetchM_fst url env st
    rw [retryLoop_succ]
    cases hd : doFetchM url env st with
    | mk res st' =>
      have hres : classify (env.net st.netCalls) = res := by rw [← hfst, hd]
      have hnc' : st'.netCalls = st.netCalls + 1 := by rw [hd] at hnc; exact hnc
      rw [Nat.add_zero, hres] at h0
      have hnext : ∀ (d : Int), ∀ j, j < n →
          isRetryable (classify (env.net ((sleepM d st').netCalls + j))) = true := by
        intro d j hj
        have : (sleepM d st').netCalls = st.netCalls + 1 := by simp [sleepM, hnc']
        rw [this]
        have := h (j + 1) (by omega)
        simpa [Nat.add_assoc, Nat.add_comm 1 j] using this
      cases res with
      | okResp r => simp [isRetryable] at h0
      | okNil => simp [isRetryable] at h0
      | fail e =>
        cases e with
        | rateLimited t =>
          obtain ⟨h1, h2⟩ := ih (i + 1) (sleepM (expiration t st'.now) st')
            (hnext (expiration t st'.now))
          refine ⟨h1, ?_⟩
          rw [h2]
          simp [sleepM, hnc']
          omega
        | httpErr s => simp [isRetryable] at h0
        | generic m =>
          obtain ⟨h1, h2⟩ := ih (i + 1) (sleepM (backoff i) st') (hnext (backoff i))
          refine ⟨h1, ?_⟩
          rw [h2]
          simp [sleepM, hnc']
          omega

/-- If the `j`-th remaining scripted outcome classifies as an
`httpError` and everything before it is retryable, the loop returns the
soft `httpError` abort. -/
lemma retryLoop_permanent (url : String) (env : Env) :
    ∀ n i st j, j < n → isPermanent (classify (env.net (st.netCalls + j))) = true →
      (∀ l, l < j → isRetryable (classify (env.net (st.netCalls + l))) = true) →
      (retryLoop url env n i st).1 = .httpAbort := by
  intro n
  induction n with
  | zero => intro i st j hj _ _; omega
  | succ n ih =>
    intro i st j hj hperm hpre
    obtain ⟨_, hnc, _, _, _, _⟩ := doFetchM_fields url env st
    have hfst := doFetchM_fst url env st
    rw [retryLoop_succ]
    cases hd : doFetchM url env st with
    | mk res st' =>
      have hres : classify (env.net st.netCalls) = res := by rw [← hfst, hd]
      have hnc' : st'.netCalls = st.netCalls + 1 := by rw [hd] at hnc; exact hnc
      cases j with
      | zero =>
        rw [Nat.add_zero, hres] at hperm
        obtain ⟨s, hs⟩ := isPermanent_elim hperm
        subst hs
        rfl
      | succ j =>
        have h0 : isRetryable (classify (env.net (st.netCalls + 0))) = true :=
          hpre 0 (by omega)
        rw [Nat.add_zero, hres] at h0
        have hshift : ∀ (d : Int),
            isPermanent (classify (env.net ((sleepM d st').netCalls + j))) = true ∧
              ∀ l, l < j → isRetryable (classify (env.net ((sleepM d st').netCalls + l))) = true := by
          intro d
          have hh : (sleepM d st').netCalls = st.netCalls + 1 := by simp [sleepM, hnc']
          constructor
          · rw [hh]
            have := hperm
            simpa [Nat.add_assoc, Nat.add_comm 1 j] using this
          · intro l hl
            rw [hh]
            have := hpre (l + 1) (by omega)
            simpa [Nat.add_assoc, Nat.add_comm 1 l] using this
        cases res with
        | okResp r => simp [isRetryable] at h0
        | okNil => simp [isRetryable] at h0
        | fail e =>
          cases e with
          | rateLimited t =>
            exact ih (i + 1) (sleepM (expiration t st'.now) st') j (by omega)
              (hshift (expiration t st'.now)).1 (hshift (expiration t st'.now)).2
          | httpErr s => simp [isRetryable] at h0
          | generic m =>
            exact ih (i + 1) (sleepM (backoff i) st') j (by omega)
              (hshift (backoff i)).1 (hshift (backoff i)).2

/-- Under an all-transient schedule the loop sleeps exactly the backoff
sequence indexed from `i` and breaks with no response. -/
lemma retryLoop_generic_sleeps (url : String) (env : Env)
    (h : ∀ k, isGeneric (classify (env.net k)) = true) :
    ∀ n i st, (retryLoop url env n i st).1 = .gotNil ∧
      (retryLoop url env n i st).2.sleeps =
        st.sleeps ++ (List.range n).map (fun j => backoff (i + j)) := by
  intro n
  induction n with
  | zero => intro i st; exact ⟨rfl, by simp [retryLoop]⟩
  | succ n ih =>
    intro i st
    obtain ⟨m, hm⟩ := isGeneric_elim (h st.netCalls)
    obtain ⟨_, _, _, _, hsl, _⟩ := doFetchM_fields url env st
    have hfst := doFetchM_fst url env st
    rw [retryLoop_succ]
    cases hd : doFetchM url env st with
    | mk res st' =>
      have hres : res = .fail (.generic m) := by rw [← hm, ← hfst, hd]
      subst hres
      have hsl' : st'.sleeps = st.sleeps := by rw [hd] at hsl; exact hsl
      obtain ⟨h1, h2⟩ := ih (i + 1) (sleepM (backoff i) st')
      refine ⟨h1, ?_⟩
      rw [h2]
      simp only [sleepM, hsl']
      rw [List.append_assoc]
      congr 1
      rw [List.range_succ_eq_map, List.map_cons, List.map_map]
      simp only [List.singleton_append, Nat.add_zero]
      congr 1
      apply List.map_congr_left
      intro j _
      simp only [Function.comp_apply]
      congr 1
      omega

/-- A run of the retry loop with at least one attempt left always
issues at least one network call. -/
lemma retryLoop_netCalls_succ_ge (url : String) (env : Env) (n i : Nat) (st : St) :
    st.netCalls + 1 ≤ (retryLoop url env (n + 1) i st).2.netCalls := by
  obtain ⟨_, hnc, _, _, _, _⟩ := doFetchM_fields url env st
  rw [retryLoop_succ]
  cases hd : doFetchM url env st with
  | mk res st' =>
    have hnc' : st'.netCalls = st.netCalls + 1 := by rw [hd] at hnc; exact hnc
    cases res with
    | okResp r => simpa using le_of_eq hnc'.symm
    | okNil => simpa using le_of_eq hnc'.symm
    | fail e =>
      cases e with
      | rateLimited t =>
        show st.netCalls + 1 ≤
          (retryLoop url env n (i + 1) (sleepM (expiration t st'.now) st')).2.netCalls
        have h2 := (retryLoop_state url env n (i + 1) (sleepM (expiration t st'.now) st')).2.1
        have h3 : (sleepM (expiration t st'.now) st').netCalls = st'.netCalls := rfl
        omega
      | httpErr s => simpa using le_of_eq hnc'.symm
      | generic m =>
        show st.netCalls + 1 ≤
          (retryLoop url env n (i + 1) (sleepM (backoff i) st')).2.netCalls
        have h2 := (retryLoop_state url env n (i + 1) (sleepM (backoff i) st')).2.1
        have h3 : (sleepM (backoff i) st').netCalls = st'.netCalls := rfl
        omega

lemma networkPhase_ctx (url : String) (env : Env) (st : St) :
    (networkPhase url env st).2.ctx = st.ctx := by
  have hloop := (retryLoop_state url env 10 0 st).1
  unfold networkPhase
  cases hr : retryLoop url env 10 0 st with
  | mk res st' =>
    have hctx : st'.ctx = st.ctx := by rw [hr] at hloop; exact hloop
    cases res with
    | gotResp r =>
      have := (finishResp_fields url (linkNextStr r) r env st').1
      simp only [this, hctx]
    | gotNil => exact hctx
    | httpAbort => exact hctx

lemma networkPhase_netCalls (url : String) (env : Env) (st : St) :
    st.netCalls + 1 ≤ (networkPhase url env st).2.netCalls ∧
      (networkPhase url env st).2.netCalls ≤ st.netCalls + 10 := by
  have h1 := retryLoop_netCalls_succ_ge url env 9 0 st
  have h2 := (retryLoop_state url env 10 0 st).2.2.1
  unfold networkPhase
  cases hr : retryLoop url env 10 0 st with
  | mk res st' =>
    rw [hr] at h1 h2
    cases res with
    | gotResp r =>
      have := (finishResp_fields url (linkNextStr r) r env st').2.1
      simp only [this]
      exact ⟨h1, h2⟩
    | gotNil => exact ⟨h1, h2⟩
    | httpAbort => exact ⟨h1, h2⟩

/-- On a cache hit whose entry has a next link, or when the last page is
not to be revalidated, `fetchURL` goes straight to the body phase of the
cached response. -/
lemma fetchOnce_hit_direct (url : String) (refresh : Bool) (env : Env) (st : St)
    (r : Response) (h : getCache (cacheKey st.ctx url) st.cache = some r)
    (hbr : linkNextStr r ≠ "" ∨ refresh = false) :
    fetchOnce url refresh env st = finishResp url (linkNextStr r) r env st := by
  simp only [fetchOnce, h]
  rw [if_pos hbr]

/-- On a cache hit of a last page with `refresh` set, the cached
response is dropped and the network branch runs. -/
lemma fetchOnce_hit_revalidate (url : String) (refresh : Bool) (env : Env) (st : St)
    (r : Response) (h : getCache (cacheKey st.ctx url) st.cache = some r)
    (hnext : linkNextStr r = "") (hrefresh : refresh = true) :
    fetchOnce url refresh env st = networkPhase url env st := by
  simp only [fetchOnce, h]
  rw [if_neg]
  subst hrefresh
  simp [hnext]

lemma fetchOnce_miss (url : String) (refresh : Bool) (env : Env) (st : St)
    (h : getCache (cacheKey st.ctx url) st.cache = none) :
    fetchOnce url refresh env st = networkPhase url env st := by
  simp only [fetchOnce, h]

lemma fetchOnce_cases (url : String) (refresh : Bool) (env : Env) (st : St) :
    fetchOnce url refresh env st = networkPhase url env st ∨
      ∃ r, getCache (cacheKey st.ctx url) st.cache = some r ∧
        fetchOnce url refresh env st = finishResp url (linkNextStr r) r env st := by
  cases h : getCache (cacheKey st.ctx url) st.cache with
  | none => exact Or.inl (fetchOnce_miss url refresh env st h)
  | some r =>
    by_cases hbr : linkNextStr r ≠ "" ∨ refresh = false
    · exact Or.inr ⟨r, rfl, fetchOnce_hit_direct url refresh env st r h hbr⟩
    · push_neg at hbr
      refine Or.inl (fetchOnce_hit_revalidate url refresh env st r h hbr.1 ?_)
      cases refresh with
      | false => exact absurd rfl hbr.2
      | true => rfl

lemma fetchOnce_ctx (url : String) (refresh : Bool) (env : Env) (st : St) :
    (fetchOnce url refresh env st).2.ctx = st.ctx := by
  rcases fetchOnce_cases url refresh env st with h | ⟨r, _, h⟩
  · rw [h]
    exact networkPhase_ctx url env st
  · rw [h]
    exact (finishResp_fields url (linkNextStr r) r env st).1

lemma fetchOnce_netCalls_le (url : String) (refresh : Bool) (env : Env) (st : St) :
    (fetchOnce url refresh env st).2.netCalls ≤ st.netCalls + 10 := by
  rcases fetchOnce_cases url refresh env st with h | ⟨r, _, h⟩
  · rw [h]
    exact (networkPhase_netCalls url env st).2
  · rw [h]
    have := (finishResp_fields url (linkNextStr r) r env st).2.1
    omega

lemma fetchURL_ctx (url : String) (refresh : Bool) (env : Env) :
    ∀ fuel st, (fetchURL url refresh env fuel st).2.ctx = st.ctx := by
  intro fuel
  induction fuel with
  | zero =>
    intro st
    have h := fetchOnce_ctx url refresh env st
    unfold fetchURL
    cases ho : fetchOnce url refresh env st with
    | mk res st' =>
      rw [ho] at h
      cases res with
      | done o => exact h
      | corrupted => exact h
  | succ fuel ih =>
    intro st
    have h := fetchOnce_ctx url refresh env st
    unfold fetchURL
    cases ho : fetchOnce url refresh env st with
    | mk res st' =>
      rw [ho] at h
      cases res with
      | done o => exact h
      | corrupted => rw [ih st']; exact h

/-! ## Concrete test fixtures -/

/-- A concrete context for concrete runs. -/
def exCtx : Context := ⟨"owner/repo", "secret", "cachedir", ""⟩

/-- A starting state with an empty cache at clock zero. -/
def stEmpty : St := ⟨exCtx, [], 0, 0, [], [], 0⟩

/-- A 200 response whose body read fails (a corrupt entry). -/
def corruptResp : Response := ⟨200, ⟨"", "", ""⟩, none⟩

/-- A 200 response with a readable body. -/
def okBodyResp : Response := ⟨200, ⟨"", "", ""⟩, some "[]"⟩

/-- A 404 response. -/
def notFoundResp : Response := ⟨404, ⟨"", "", ""⟩, some "{}"⟩

/-- A 403 rate-limit response: quota remaining `0`, reset at Unix second 5. -/
def rateLimitedResp : Response := ⟨403, ⟨"", "0", "5"⟩, none⟩

/-- A starting state whose cache holds a corrupt entry for URL `"u"`. -/
def stCorruptCached : St := ⟨exCtx, [(cacheKey exCtx "u", corruptResp)], 0, 0, [], [], 0⟩

/-- A starting state whose cache holds a readable last-page entry for `"u"`. -/
def stOkCached : St := ⟨exCtx, [(cacheKey exCtx "u", okBodyResp)], 0, 0, [], [], 0⟩

/-- Network: first call yields a corrupt body, later calls a good one. -/
def envC1 : Env := ⟨fun n => if n = 0 then .response corruptResp true else .response okBodyResp true,
  fun _ => true⟩

/-- Network: every call yields a 200 response whose body read fails. -/
def envAllCorrupt : Env := ⟨fun _ => .response corruptResp true, fun _ => true⟩

/-- Network: every call is a transport-level failure. -/
def envAllNetErr : Env := ⟨fun _ => .netErr "connection reset", fun _ => true⟩

/-- Network: every call yields a 404. -/
def envAll404 : Env := ⟨fun _ => .response notFoundResp true, fun _ => true⟩

/-- Network: every call yields a good 200 whose cache write fails. -/
def envPutFail : Env := ⟨fun _ => .response okBodyResp false, fun _ => true⟩

/-- Network: every call yields a good 200 with a successful cache write. -/
def envAllOk : Env := ⟨fun _ => .response okBodyResp true, fun _ => true⟩

/-- An environment whose `json.Unmarshal` fails on every body. -/
def envDecodeFail : Env := ⟨fun _ => .netErr "unused", fun _ => false⟩

/-- Network: first call rate-limited (reset at second 5), then good. -/
def envRL : Env := ⟨fun n => if n = 0 then .response rateLimitedResp true else .response okBodyResp true,
  fun _ => true⟩

/-! ## The claims -/

/-- C8: the `Link` header value
`<https://api.example.com/x?page=2>; rel="next", <https://api.example.com/x?page=5>; rel="last"`
yields the next cursor `https://api.example.com/x?page=2` (the second URL
is extracted but not surfaced as the cursor), and a response whose
pagination header is absent or fails to match the pattern yields no next
cursor. -/
theorem claim_C8 :
    linkNextStr ⟨200,
        ⟨"<https://api.example.com/x?page=2>; rel=\"next\", <https://api.example.com/x?page=5>; rel=\"last\"",
          "", ""⟩, none⟩ = "https://api.example.com/x?page=2" ∧
      linkMatch
          "<https://api.example.com/x?page=2>; rel=\"next\", <https://api.example.com/x?page=5>; rel=\"last\"" =
        some ("https://api.example.com/x?page=2", "https://api.example.com/x?page=5") ∧
      (∀ r : Response, r.headers.link = "" → linkNextStr r = "") ∧
      (∀ r : Response, linkMatch r.headers.link = none → linkNextStr r = "") := by
  refine ⟨by decide, by decide, ?_, ?_⟩
  · intro r h
    simp [linkNextStr, h]
  · intro r h
    unfold linkNextStr
    by_cases hl : r.headers.link = ""
    · simp [hl]
    · simp [hl, h]

/-- Witness for C8 at concrete inputs: an absent header and a malformed
header both yield the empty cursor. -/
theorem claim_C8_witness :
    linkNextStr ⟨200, ⟨"", "", ""⟩, none⟩ = "" ∧
      linkNextStr ⟨200, ⟨"garbage", "", ""⟩, none⟩ = "" := by
  exact ⟨claim_C8.2.2.1 ⟨200, ⟨"", "", ""⟩, none⟩ rfl,
    claim_C8.2.2.2 ⟨200, ⟨"garbage", "", ""⟩, none⟩ (by decide)⟩

/-- C10: a 403 response whose quota-remaining header is present and
equal to zero but whose quota-reset header is absent or unparsable falls
through to the `default` branch and is classified as a permanent
`httpError`, not as rate-limited. -/
theorem claim_C10 (r : Response) (putOk : Bool)
    (h403 : r.statusCode = 403)
    (hrem : r.headers.xRateLimitRemaining ≠ "")
    (hrem0 : atoi? r.headers.xRateLimitRemaining = some 0)
    (hreset : r.headers.xRateLimitReset = "" ∨ atoi? r.headers.xRateLimitReset = none) :
    classify (.response r putOk) = .fail (.httpErr 403) := by
  rcases hreset with h | h
  · simp [classify, h403, hrem, hrem0, h]
  · by_cases hR : r.headers.xRateLimitReset = ""
    · simp [classify, h403, hrem, hrem0, hR]
    · simp [classify, h403, hrem, hrem0, hR, h]

/-- Witness for C10 at a concrete input: 403, quota remaining `"0"`,
quota reset header absent. -/
theorem claim_C10_witness :
    classify (.response ⟨403, ⟨"", "0", ""⟩, none⟩ true) = .fail (.httpErr 403) :=
  claim_C10 ⟨403, ⟨"", "0", ""⟩, none⟩ true rfl (by decide) (by decide) (Or.inl rfl)

/-- C9: `fetchURL` never mutates the caller's `Context` (every field of
the context in the final state equals the input), and `QueryStargazers`
sets its accept-header override on a fresh per-call copy: the context it
hands to `fetchURL` differs from the caller's only in `acceptHeader`,
and the caller's context is unchanged afterwards. -/
theorem claim_C9 (url : String) (refresh : Bool) (env : Env) (fuel : Nat) (st : St)
    (c : Context) :
    (fetchURL url refresh env fuel st).2.ctx = st.ctx ∧
      queryStargazersCall c =
        (⟨c.Repo, c.Token, c.CacheDir, "application/vnd.github.v3.star+json"⟩, c) :=
  ⟨fetchURL_ctx url refresh env fuel st, rfl⟩

/-- C3: the backoff before retry `i` is exactly
`min(50ms * 2^i, 1000ms)` with no jitter, and a fetch whose attempts all
fail with transient (non-rate-limit, non-HTTP-status) errors sleeps
exactly 50ms, 100ms, 200ms, 400ms, 800ms, then 1000ms capped, across its
ten attempts, after which it soft-fails with an empty cursor and no
error. -/
theorem claim_C3 (url : String) (refresh : Bool) (env : Env) (st : St)
    (htrans : ∀ k, isGeneric (classify (env.net k)) = true)
    (hmiss : getCache (cacheKey st.ctx url) st.cache = none) :
    (∀ i, backoff i = min (50000000 * 2 ^ i) 1000000000) ∧
      (fetchOnce url refresh env st).2.sleeps =
        st.sleeps ++ [50000000, 100000000, 200000000, 400000000, 800000000,
          1000000000, 1000000000, 1000000000, 1000000000, 1000000000] ∧
      (fetchOnce url refresh env st).1 = .done ⟨"", none, none⟩ := by
  have hmin : ∀ i, backoff i = min (50000000 * 2 ^ i) 1000000000 := by
    intro i
    have hc : (50000000 : Int) * 2 ^ i = 2 ^ i * 50000000 := mul_comm _ _
    simp only [backoff]
    rcases lt_or_le (1000000000 : Int) (2 ^ i * 50000000) with h | h
    · rw [if_pos h, hc, min_eq_right (le_of_lt h)]
    · rw [if_neg (not_lt.mpr h), hc, min_eq_left h]
  obtain ⟨hres, hsl⟩ := retryLoop_generic_sleeps url env htrans 10 0 st
  rw [fetchOnce_miss url refresh env st hmiss]
  unfold networkPhase
  cases hr : retryLoop url env 10 0 st with
  | mk res st' =>
    rw [hr] at hres hsl
    simp only at hres
    subst hres
    refine ⟨hmin, ?_, rfl⟩
    rw [hsl]
    congr 1

/-- Witness for C3: under a constant transport-failure network with an
empty cache, the observed sleep list is exactly the capped doubling
sequence and the result is the soft failure. -/
theorem claim_C3_witness :
    backoff 5 = min (50000000 * 2 ^ 5) 1000000000 ∧
      (fetchOnce "u" false envAllNetErr stEmpty).2.sleeps =
        [50000000, 100000000, 200000000, 400000000, 800000000,
          1000000000, 1000000000, 1000000000, 1000000000, 1000000000] ∧
      (fetchOnce "u" false envAllNetErr stEmpty).1 = .done ⟨"", none, none⟩ := by
  have h := claim_C3 "u" false envAllNetErr stEmpty (fun k => rfl) rfl
  exact ⟨h.1 5, h.2.1, h.2.2⟩

/-- C2: one pass of `fetchURL` performs at most 10 network attempts,
and when the outcome is a permanent (`httpError`) failure, or every
attempt of the exhausted budget fails retryably, the call returns the
soft failure: empty next cursor, `nil` error, nothing decoded. -/
theorem claim_C2 (url : String) (refresh : Bool) (env : Env) (st : St) :
    (fetchOnce url refresh env st).2.netCalls ≤ st.netCalls + 10 ∧
      (getCache (cacheKey st.ctx url) st.cache = none →
        ((∃ j, j < 10 ∧ isPermanent (classify (env.net (st.netCalls + j))) = true ∧
            ∀ l, l < j → isRetryable (classify (env.net (st.netCalls + l))) = true) ∨
          (∀ j, j < 10 → isRetryable (classify (env.net (st.netCalls + j))) = true)) →
        (fetchOnce url refresh env st).1 = OnceRes.done ⟨"", none, none⟩) := by
  refine ⟨fetchOnce_netCalls_le url refresh env st, ?_⟩
  intro hmiss hcase
  rw [fetchOnce_miss url refresh env st hmiss]
  unfold networkPhase
  rcases hcase with ⟨j, hj, hperm, hpre⟩ | hall
  · have habort := retryLoop_permanent url env 10 0 st j hj hperm hpre
    cases hr : retryLoop url env 10 0 st with
    | mk res st' =>
      rw [hr] at habort
      simp only at habort
      subst habort
      rfl
  · have hnil := (retryLoop_exhaust url env 10 0 st hall).1
    cases hr : retryLoop url env 10 0 st with
    | mk res st' =>
      rw [hr] at hnil
      simp only at hnil
      subst hnil
      rfl

/-- Witness for C2 at a concrete input: an all-404 network, empty cache;
the budget bound holds and the result is the soft failure. -/
theorem claim_C2_witness :
    (fetchOnce "u" false envAll404 stEmpty).2.netCalls ≤ stEmpty.netCalls + 10 ∧
      (fetchOnce "u" false envAll404 stEmpty).1 = OnceRes.done ⟨"", none, none⟩ := by
  have h := claim_C2 "u" false envAll404 stEmpty
  exact ⟨h.1, h.2 rfl (Or.inl ⟨0, by decide, by decide, fun l hl => absurd hl (by omega)⟩)⟩

/-- C4: a 403 response with the quota-remaining header present and equal
to zero and a parsable quota-reset header `T` is classified as
rate-limited carrying `T`, and after the retry policy's sleep every
network attempt issued after that one happens no earlier than
`T + 1s` (in nanoseconds, `T * 1e9 + 1e9`). -/
theorem claim_C4 (url : String) (env : Env) (st : St) (n i : Nat) (r : Response)
    (putOk : Bool) (T : Int)
    (h403 : r.statusCode = 403)
    (hrem : r.headers.xRateLimitRemaining ≠ "")
    (hrem0 : atoi? r.headers.xRateLimitRemaining = some 0)
    (hresetp : r.headers.xRateLimitReset ≠ "")
    (hreset : atoi? r.headers.xRateLimitReset = some T) :
    classify (.response r putOk) = .fail (.rateLimited T) ∧
      (env.net st.netCalls = .response r putOk →
        ∀ t ∈ (retryLoop url env (n + 1) i st).2.attemptTimes,
          t ∈ st.attemptTimes ∨ t = st.now ∨ T * 1000000000 + 1000000000 ≤ t) := by
  have hcl : classify (.response r putOk) = .fail (.rateLimited T) := by
    simp [classify, h403, hrem, hrem0, hresetp, hreset]
  refine ⟨hcl, ?_⟩
  intro hnet t ht
  rw [retryLoop_succ] at ht
  have hfst := doFetchM_fst url env st
  rw [hnet, hcl] at hfst
  obtain ⟨_, _, hnow, hat, _, _⟩ := doFetchM_fields url env st
  cases hd : doFetchM url env st with
  | mk res st' =>
    rw [hd] at hfst hnow hat ht
    simp only at hfst hnow hat
    subst hfst
    have hmem := (retryLoop_state url env n (i + 1)
      (sleepM (expiration T st'.now) st')).2.2.2.2 t ht
    have hb : T * 1000000000 + 1000000000 ≤ (sleepM (expiration T st'.now) st').now := by
      have h1 : expiration T st'.now ≤ max (expiration T st'.now) 0 :=
        le_max_left _ _
      have h2 : expiration T st'.now = T * 1000000000 + 1000000000 - st'.now := rfl
      have h3 : (sleepM (expiration T st'.now) st').now =
        st'.now + max (expiration T st'.now) 0 := rfl
      omega
    rcases hmem with hm | hm
    · have hat2 : (sleepM (expiration T st'.now) st').attemptTimes =
        st.attemptTimes ++ [st.now] := by
        rw [(sleepM_fields (expiration T st'.now) st').2.2.2.1, hat]
      rw [hat2] at hm
      rcases List.mem_append.mp hm with h | h
      · exact Or.inl h
      · exact Or.inr (Or.inl (by simpa using h))
    · exact Or.inr (Or.inr (le_trans hb hm))

/-- Witness for C4 at a concrete input: reset at Unix second 5; the
second attempt of the run is issued at 6 seconds, i.e. not before
`T + 1s`. -/
theorem claim_C4_witness :
    classify (.response rateLimitedResp true) = .fail (.rateLimited 5) ∧
      (5 : Int) * 1000000000 + 1000000000 ≤
        (retryLoop "u" envRL 2 0 stEmpty).2.attemptTimes.getD 1 0 := by
  have h := claim_C4 "u" envRL stEmpty 1 0 rateLimitedResp true 5 rfl (by decide)
    (by decide) (by decide) (by decide)
  refine ⟨h.1, ?_⟩
  have hm := h.2 rfl ((retryLoop "u" envRL 2 0 stEmpty).2.attemptTimes.getD 1 0) (by decide)
  rcases hm with hm | hm | hm
  · exact absurd hm (by decide)
  · exact absurd hm (by decide)
  · exact hm

/-- C6: on a cache hit, if `refresh` is false or the cached entry has a
next cursor, the cached response is used directly (no network call and,
when its body reads and decodes, its bytes are what is returned); if
`refresh` is true and the cached entry has no next cursor, the cached
response is dropped and a network fetch is forced (at least one network
call happens). -/
theorem claim_C6 (url : String) (refresh : Bool) (env : Env) (st : St) (r : Response)
    (hhit : getCache (cacheKey st.ctx url) st.cache = some r) :
    ((refresh = false ∨ linkNextStr r ≠ "") →
      fetchOnce url refresh env st = finishResp url (linkNextStr r) r env st ∧
        (fetchOnce url refresh env st).2.netCalls = st.netCalls ∧
        ∀ b, r.bodyRead = some b → env.decodeOk b = true →
          (fetchOnce url refresh env st).1 = .done ⟨linkNextStr r, none, some b⟩) ∧
    ((refresh = true ∧ linkNextStr r = "") →
      fetchOnce url refresh env st = networkPhase url env st ∧
        st.netCalls + 1 ≤ (fetchOnce url refresh env st).2.netCalls) := by
  constructor
  · intro hcond
    have heq := fetchOnce_hit_direct url refresh env st r hhit hcond.symm
    refine ⟨heq, ?_, ?_⟩
    · rw [heq]
      exact (finishResp_fields url (linkNextStr r) r env st).2.1
    · intro b hb hdec
      rw [heq]
      unfold finishResp
      rw [hb]
      simp [hdec]
  · rintro ⟨hr, hn⟩
    have heq := fetchOnce_hit_revalidate url refresh env st r hhit hn hr
    refine ⟨heq, ?_⟩
    rw [heq]
    exact (networkPhase_netCalls url env st).1

/-- Witness for C6 at a concrete input: a cached readable last page with
`refresh = false` is served with no state change and its bytes
decoded. -/
theorem claim_C6_witness :
    fetchOnce "u" false envAllNetErr stOkCached =
      finishResp "u" (linkNextStr okBodyResp) okBodyResp envAllNetErr stOkCached ∧
      (fetchOnce "u" false envAllNetErr stOkCached).1 = .done ⟨"", none, some "[]"⟩ := by
  have h := (claim_C6 "u" false envAllNetErr stOkCached okBodyResp rfl).1 (Or.inl rfl)
  exact ⟨h.1, h.2.2 "[]" rfl rfl⟩

/-- C7: for a cached identity whose entry reads and decodes, two
successive `fetchURL` calls with `refresh = false` return the same
decoded bytes, leave the state untouched, and the second call performs
zero network calls. -/
theorem claim_C7 (url : String) (env : Env) (st : St) (r : Response) (b : String)
    (fuel fuel' : Nat)
    (hhit : getCache (cacheKey st.ctx url) st.cache = some r)
    (hbody : r.bodyRead = some b)
    (hdec : env.decodeOk b = true) :
    fetchURL url false env fuel st = (some ⟨linkNextStr r, none, some b⟩, st) ∧
      fetchURL url false env fuel' ((fetchURL url false env fuel st).2) =
        (some ⟨linkNextStr r, none, some b⟩, st) ∧
      (fetchURL url false env fuel' ((fetchURL url false env fuel st).2)).2.netCalls =
        st.netCalls := by
  have honce : fetchOnce url false env st = (.done ⟨linkNextStr r, none, some b⟩, st) := by
    rw [fetchOnce_hit_direct url false env st r hhit (Or.inr rfl)]
    unfold finishResp
    rw [hbody]
    simp [hdec]
  have hfu : ∀ f, fetchURL url false env f st = (some ⟨linkNextStr r, none, some b⟩, st) := by
    intro f
    cases f with
    | zero =>
      unfold fetchURL
      rw [honce]
    | succ f =>
      unfold fetchURL
      rw [honce]
  refine ⟨hfu fuel, ?_, ?_⟩
  · rw [hfu fuel]
    exact hfu fuel'
  · rw [hfu fuel, hfu fuel']

/-- Witness for C7 at a concrete input: the cached readable entry is
served twice identically with the state unchanged. -/
theorem claim_C7_witness :
    fetchURL "u" false envAllNetErr 3 stOkCached = (some ⟨"", none, some "[]"⟩, stOkCached) ∧
      fetchURL "u" false envAllNetErr 4 ((fetchURL "u" false envAllNetErr 3 stOkCached).2) =
        (some ⟨"", none, some "[]"⟩, stOkCached) ∧
      (fetchURL "u" false envAllNetErr 4
        ((fetchURL "u" false envAllNetErr 3 stOkCached).2)).2.netCalls =
        stOkCached.netCalls :=
  claim_C7 "u" envAllNetErr stOkCached okBodyResp "[]" 3 4 rfl rfl rfl

/-- Counterexample to C1 as stated: starting from a cached entry whose
body read fails, the refetched response's body read fails again (a
second consecutive decode failure), yet the engine does not propagate a
hard decode error — it invalidates and retries a second time and the
call succeeds with no error after two invalidation cycles, not "exactly
once". -/
theorem claim_C1_counterexample :
    (fetchURL "u" false envC1 5 stCorruptCached).1 = some ⟨"", none, some "[]"⟩ ∧
      (fetchURL "u" false envC1 5 stCorruptCached).2.clears = 2 := by
  decide

/-- Helper for the amended C1: when every network response is a 200
whose body read fails and any cached entry for the URL is also
unreadable, one pass of `fetchURL` always ends in the corruption branch,
incrementing the invalidation count and leaving no cache entry for the
URL. -/
lemma fetchOnce_corrupt (url : String) (refresh : Bool) (env : Env) (cr : Response)
    (hcr200 : cr.statusCode = 200) (hcrBody : cr.bodyRead = none)
    (hnet : ∀ k, env.net k = .response cr true) (st : St)
    (hcache : ∀ r, getCache (cacheKey st.ctx url) st.cache = some r → r.bodyRead = none) :
    ∃ st', fetchOnce url refresh env st = (.corrupted, st') ∧
      st'.clears = st.clears + 1 ∧ st'.ctx = st.ctx ∧
      getCache (cacheKey st'.ctx url) st'.cache = none := by
  have hnetPhase : ∃ st', networkPhase url env st = (.corrupted, st') ∧
      st'.clears = st.clears + 1 ∧ st'.ctx = st.ctx ∧
      getCache (cacheKey st'.ctx url) st'.cache = none := by
    have hcl : classify (env.net st.netCalls) = .okResp cr := by
      rw [hnet st.netCalls]
      simp [classify, hcr200]
    have hfst := doFetchM_fst url env st
    rw [hcl] at hfst
    obtain ⟨hctx, _, _, _, _, hclears⟩ := doFetchM_fields url env st
    have hcc := doFetchM_cache_okResp url env st cr hcl
    unfold networkPhase
    rw [show (10 : Nat) = 9 + 1 from rfl, retryLoop_succ]
    cases hd : doFetchM url env st with
    | mk res st₁ =>
      rw [hd] at hfst hctx hclears hcc
      simp only at hfst hctx hclears hcc
      subst hfst
      show ∃ st', finishResp url (linkNextStr cr) cr env st₁ = (.corrupted, st') ∧
        st'.clears = st.clears + 1 ∧ st'.ctx = st.ctx ∧
        getCache (cacheKey st'.ctx url) st'.cache = none
      unfold finishResp
      rw [hcrBody]
      refine ⟨_, rfl, by simpa using hclears, hctx, ?_⟩
      show getCache (cacheKey st₁.ctx url) (clearEntry (cacheKey st₁.ctx url) st₁.cache) = none
      exact getCache_clearEntry _ _
  cases hget : getCache (cacheKey st.ctx url) st.cache with
  | none =>
    rw [fetchOnce_miss url refresh env st hget]
    exact hnetPhase
  | some r =>
    have hbr := hcache r hget
    by_cases hcond : linkNextStr r ≠ "" ∨ refresh = false
    · rw [fetchOnce_hit_direct url refresh env st r hget hcond]
      unfold finishResp
      rw [hbr]
      refine ⟨_, rfl, rfl, rfl, ?_⟩
      exact getCache_clearEntry _ _
    · push_neg at hcond
      have hrefresh : refresh = true := by
        cases refresh with
        | false => exact absurd rfl hcond.2
        | true => rfl
      rw [fetchOnce_hit_revalidate url refresh env st r hget hcond.1 hrefresh]
      exact hnetPhase

/-- Helper for the amended C1: with every fetch delivering an unreadable
body, a run with fuel for `fuel` corruption recursions performs
`fuel + 1` invalidation cycles and still has not produced a result. -/
lemma fetchURL_corrupt_loop (url : String) (refresh : Bool) (env : Env) (cr : Response)
    (hcr200 : cr.statusCode = 200) (hcrBody : cr.bodyRead = none)
    (hnet : ∀ k, env.net k = .response cr true) :
    ∀ fuel st,
      (∀ r, getCache (cacheKey st.ctx url) st.cache = some r → r.bodyRead = none) →
      (fetchURL url refresh env fuel st).1 = none ∧
        (fetchURL url refresh env fuel st).2.clears = st.clears + fuel + 1 := by
  intro fuel
  induction fuel with
  | zero =>
    intro st hcache
    obtain ⟨st', ho, hclears, _, _⟩ :=
      fetchOnce_corrupt url refresh env cr hcr200 hcrBody hnet st hcache
    unfold fetchURL
    rw [ho]
    refine ⟨rfl, ?_⟩
    show st'.clears = st.clears + 0 + 1
    omega
  | succ fuel ih =>
    intro st hcache
    obtain ⟨st', ho, hclears, hctx, hnone⟩ :=
      fetchOnce_corrupt url refresh env cr hcr200 hcrBody hnet st hcache
    unfold fetchURL
    rw [ho]
    have hcache' : ∀ r, getCache (cacheKey st'.ctx url) st'.cache = some r →
        r.bodyRead = none := by
      intro r hr
      rw [hnone] at hr
      cases hr
    obtain ⟨ha, hb⟩ := ih st' hcache'
    refine ⟨?_, ?_⟩
    · show (fetchURL url refresh env fuel st').1 = none
      exact ha
    · show (fetchURL url refresh env fuel st').2.clears = st.clears + (fuel + 1) + 1
      omega

/-- C1 (amended): a body read failure triggers an invalidate-and-retry
cycle on every occurrence, without bound — with every fetch delivering
an unreadable body, a run with fuel for `fuel` corruption recursions
performs `fuel + 1` invalidation cycles and still has not produced a
result, so repeated read failures are never converted into a hard
error; a JSON-unmarshal failure, by contrast, propagates immediately as
a hard decode error with no invalidation and no retry: the body phase
of any response whose bytes fail to decode returns the unmarshal error
with the state untouched, and end to end a cached entry whose bytes
fail to decode makes `fetchURL` return that hard error with the whole
state (cache, invalidation count, network-call count) unchanged. -/
theorem claim_C1 (url : String) (refresh : Bool) (env : Env) (cr rc : Response)
    (b : String) (fuel : Nat) (st : St) :
    ((cr.statusCode = 200 → cr.bodyRead = none →
      (∀ k, env.net k = .response cr true) →
      (∀ r, getCache (cacheKey st.ctx url) st.cache = some r → r.bodyRead = none) →
      (fetchURL url refresh env fuel st).1 = none ∧
        (fetchURL url refresh env fuel st).2.clears = st.clears + fuel + 1) ∧
    (∀ next st', rc.bodyRead = some b → env.decodeOk b = false →
      finishResp url next rc env st' =
        (.done ⟨"", some ("unmarshal URL=" ++ url), none⟩, st')) ∧
    (getCache (cacheKey st.ctx url) st.cache = some rc →
      rc.bodyRead = some b → env.decodeOk b = false →
      (linkNextStr rc ≠ "" ∨ refresh = false) →
      fetchURL url refresh env fuel st =
        (some ⟨"", some ("unmarshal URL=" ++ url), none⟩, st))) := by
  have hfin : ∀ next st', rc.bodyRead = some b → env.decodeOk b = false →
      finishResp url next rc env st' =
        (.done ⟨"", some ("unmarshal URL=" ++ url), none⟩, st') := by
    intro next st' hb hdec
    unfold finishResp
    rw [hb]
    simp [hdec]
  refine ⟨?_, hfin, ?_⟩
  · intro hcr200 hcrBody hnet hcache
    exact fetchURL_corrupt_loop url refresh env cr hcr200 hcrBody hnet fuel st hcache
  · intro hhit hb hdec hcond
    have honce : fetchOnce url refresh env st =
        (.done ⟨"", some ("unmarshal URL=" ++ url), none⟩, st) := by
      rw [fetchOnce_hit_direct url refresh env st rc hhit hcond]
      exact hfin (linkNextStr rc) st hb hdec
    cases fuel with
    | zero =>
      unfold fetchURL
      rw [honce]
    | succ fuel =>
      unfold fetchURL
      rw [honce]

/-- Witness for the amended C1 at concrete inputs: with every body read
failing, fuel for two recursions is exhausted after three invalidation
cycles and no result is produced; and a cached entry whose bytes fail
to unmarshal makes `fetchURL` return the hard decode error at once with
the state unchanged. -/
theorem claim_C1_witness :
    ((fetchURL "u" false envAllCorrupt 2 stEmpty).1 = none ∧
      (fetchURL "u" false envAllCorrupt 2 stEmpty).2.clears = 3) ∧
      fetchURL "u" false envDecodeFail 2 stOkCached =
        (some ⟨"", some ("unmarshal URL=" ++ "u"), none⟩, stOkCached) := by
  constructor
  · have h := (claim_C1 "u" false envAllCorrupt corruptResp corruptResp "" 2 stEmpty).1
      rfl rfl (fun k => rfl) (fun r hr => by exact Option.noConfusion hr)
    exact ⟨h.1, h.2⟩
  · exact (claim_C1 "u" false envDecodeFail okBodyResp okBodyResp "[]" 2 stOkCached).2.2
      rfl rfl rfl (Or.inr rfl)

/-- Counterexample to C5 as stated: a 200 response with a readable,
decodable body whose cache write fails is not "treated as uncached" —
the request is aborted softly: `fetchURL` returns an empty cursor and
`nil` error, decodes nothing, and caches nothing. -/
theorem claim_C5_counterexample :
    (fetchURL "u" false envPutFail 0 stEmpty).1 = some ⟨"", none, none⟩ ∧
      (fetchURL "u" false envPutFail 0 stEmpty).2.cache = [] ∧
      (fetchURL "u" false envPutFail 0 stEmpty).2.netCalls = 1 := by
  decide

/-- C5 (amended): a status-200 response with a successful cache write is
written into the response cache before `doFetch` returns it as a
success; when the cache write fails, `doFetch` returns neither a
response nor an error (`nil, nil`), leaves the cache unchanged, and
`fetchURL` soft-fails the whole fetch (empty cursor, `nil` error,
nothing decoded) instead of using the response uncached. -/
theorem claim_C5 (url : String) (refresh : Bool) (env : Env) (st : St) (r : Response)
    (putOk : Bool)
    (h200 : r.statusCode = 200)
    (hnet : env.net st.netCalls = .response r putOk) :
    (putOk = true →
      (doFetchM url env st).1 = .okResp r ∧
        getCache (cacheKey st.ctx url) (doFetchM url env st).2.cache = some r) ∧
    (putOk = false →
      (doFetchM url env st).1 = .okNil ∧
        (doFetchM url env st).2.cache = st.cache ∧
        (getCache (cacheKey st.ctx url) st.cache = none →
          fetchOnce url refresh env st = (.done ⟨"", none, none⟩, (doFetchM url env st).2))) := by
  constructor
  · intro hp
    have hcl : classify (env.net st.netCalls) = .okResp r := by
      rw [hnet]
      simp [classify, h200, hp]
    refine ⟨by rw [doFetchM_fst]; exact hcl, ?_⟩
    rw [doFetchM_cache_okResp url env st r hcl]
    exact getCache_putCache _ _ _
  · intro hp
    have hcl : classify (env.net st.netCalls) = .okNil := by
      rw [hnet]
      simp [classify, h200, hp]
    refine ⟨by rw [doFetchM_fst]; exact hcl, ?_, ?_⟩
    · apply doFetchM_cache_not_okResp
      intro r' h'
      rw [hcl] at h'
      cases h'
    · intro hmiss
      rw [fetchOnce_miss url refresh env st hmiss]
      unfold networkPhase
      rw [show (10 : Nat) = 9 + 1 from rfl, retryLoop_succ]
      have hfst := doFetchM_fst url env st
      rw [hcl] at hfst
      cases hd : doFetchM url env st with
      | mk res st₁ =>
        rw [hd] at hfst
        simp only at hfst
        subst hfst
        rfl

/-- Witness for the amended C5 at a concrete input: a good 200 with a
successful cache write is returned as a success and sits in the cache. -/
theorem claim_C5_witness :
    (doFetchM "u" envAllOk stEmpty).1 = .okResp okBodyResp ∧
      getCache (cacheKey stEmpty.ctx "u") (doFetchM "u" envAllOk stEmpty).2.cache =
        some okBodyResp :=
  (claim_C5 "u" false envAllOk stEmpty okBodyResp true rfl rfl).1 rfl

end Stargazers
